import Mathlib

/-! Formal model of the jfrs JFR (Java Flight Recorder) chunk decoder.

The Rust sources are shallowly embedded: machine integers are modelled as `Int`/`Nat`
with explicit two's-complement wrapping where the Rust code wraps, fallible reads
return `Except`, and the recursive schema-driven value decoder is bounded by an
explicit fuel parameter (the Rust recursion has no such bound; running out of fuel is
reported by a dedicated marker distinct from every reader error).
-/

namespace Jfrs

/-- Version pair read from a chunk header (`crate::Version`). -/
structure Version where
  major : Int
  minor : Int
  deriving DecidableEq

/-- Errors surfaced by the reader (`reader::Error`). An IO error is modelled by its only
reachable kind on an in-memory buffer, reaching the end of the input. -/
inductive Err where
  | invalidFormat
  | invalidStringIndex (idx : Int)
  | invalidString
  | invalidChar
  | unsupportedVersion (v : Version)
  | classNotFound (classId : Int)
  | ioEof
  | deserializeError (msg : String)
  deriving DecidableEq

/-- Two's-complement reinterpretation of an integer as `i8`. -/
def asI8 (v : Int) : Int := (v + 128) % 256 - 128

/-- Two's-complement reinterpretation of an integer as `i16`. -/
def asI16 (v : Int) : Int := (v + 32768) % 65536 - 32768

/-- Two's-complement reinterpretation of an integer as `i32`. -/
def asI32 (v : Int) : Int := (v + 2147483648) % 4294967296 - 2147483648

/-- Two's-complement reinterpretation of an integer as `i64`. -/
def asI64 (v : Int) : Int :=
  (v + 9223372036854775808) % 18446744073709551616 - 9223372036854775808

/-- Cast of an `i32` to the 64-bit unsigned types `usize`/`u64` (sign-extending). -/
def u64OfI32 (v : Int) : Nat := (v % 18446744073709551616).toNat

/-- Cast of an `i64` to `u64`. -/
def u64OfI64 (v : Int) : Nat := (v % 18446744073709551616).toNat

/-- Wrapping subtraction on `u64`. -/
def u64Sub (a b : Nat) : Nat := (a + 18446744073709551616 - b % 18446744073709551616) % 18446744073709551616

/-- The in-memory byte source (`ByteStream` over a `Cursor<Vec<u8>>`). The backing bytes
and the integer-encoding flag are fixed while decoding; the cursor position is threaded
explicitly through every read. -/
structure ByteStream where
  data : List Nat
  compressed : Bool

/-- Read one unsigned byte (`read_u8`); reading past the end is the EOF IO error. -/
def readU8 (s : ByteStream) (pos : Nat) : Except Err (Nat × Nat) :=
  match s.data[pos]? with
  | some b => .ok (b % 256, pos + 1)
  | none => .error .ioEof

/-- Read one signed byte (`read_i8`). -/
def readI8 (s : ByteStream) (pos : Nat) : Except Err (Int × Nat) :=
  match readU8 s pos with
  | .ok (b, pos1) => .ok (asI8 b, pos1)
  | .error e => .error e

/-- Read exactly `n` bytes (`read_exact::<N>`). -/
def readExact (s : ByteStream) : Nat → Nat → Except Err (List Nat × Nat)
  | pos, 0 => .ok ([], pos)
  | pos, n + 1 =>
    match readU8 s pos with
    | .error e => .error e
    | .ok (b, pos1) =>
      match readExact s pos1 n with
      | .error e => .error e
      | .ok (bs, pos2) => .ok (b :: bs, pos2)

/-- Big-endian value of a byte list (`from_be_bytes`). -/
def beNat : List Nat → Nat := List.foldl (fun acc b => acc * 256 + b) 0

/-- Fixed-width big-endian `i16` read. -/
def readI16Raw (s : ByteStream) (pos : Nat) : Except Err (Int × Nat) :=
  match readExact s pos 2 with
  | .ok (bs, pos1) => .ok (asI16 (beNat bs), pos1)
  | .error e => .error e

/-- Fixed-width big-endian `i32` read. -/
def readI32Raw (s : ByteStream) (pos : Nat) : Except Err (Int × Nat) :=
  match readExact s pos 4 with
  | .ok (bs, pos1) => .ok (asI32 (beNat bs), pos1)
  | .error e => .error e

/-- Fixed-width big-endian `i64` read. -/
def readI64Raw (s : ByteStream) (pos : Nat) : Except Err (Int × Nat) :=
  match readExact s pos 8 with
  | .ok (bs, pos1) => .ok (asI64 (beNat bs), pos1)
  | .error e => .error e

/-- `read_f32`: an `f32` is modelled by its big-endian bit pattern (no claim depends on
floating-point arithmetic). -/
def readF32 (s : ByteStream) (pos : Nat) : Except Err (Nat × Nat) :=
  match readExact s pos 4 with
  | .ok (bs, pos1) => .ok (beNat bs, pos1)
  | .error e => .error e

/-- `read_f64`: an `f64` is modelled by its big-endian bit pattern. -/
def readF64 (s : ByteStream) (pos : Nat) : Except Err (Nat × Nat) :=
  match readExact s pos 8 with
  | .ok (bs, pos1) => .ok (beNat bs, pos1)
  | .error e => .error e

/-- The compressed (varint) decoding loop of `ByteStream::read_var_i64`: `k` counts the
remaining iterations of the 8-round loop, `i` is the current 7-bit-group index, `ret`
the accumulator. After 8 continuation bytes the 9th byte contributes its full 8 bits at
position 56, with the `i64` shift dropping the overflowing bits. -/
def readVarI64Aux (s : ByteStream) : Nat → Nat → Nat → Int → Except Err (Int × Nat)
  | 0, pos, _, ret =>
    match readI8 s pos with
    | .error e => .error e
    | .ok (b, pos1) => .ok (ret + asI64 ((b % 256) * 2 ^ 56), pos1)
  | k + 1, pos, i, ret =>
    match readI8 s pos with
    | .error e => .error e
    | .ok (b, pos1) =>
      let ret1 := ret + (b % 128) * 2 ^ (7 * i)
      if 0 ≤ b then .ok (ret1, pos1) else readVarI64Aux s k pos1 (i + 1) ret1

/-- `ByteStream::read_var_i64`. -/
def readVarI64 (s : ByteStream) (pos : Nat) : Except Err (Int × Nat) :=
  readVarI64Aux s 8 pos 0 0

/-- `read_i16`: raw fixed-width, or a narrowing cast of the varint in compressed mode. -/
def readI16 (s : ByteStream) (pos : Nat) : Except Err (Int × Nat) :=
  if s.compressed then
    match readVarI64 s pos with
    | .ok (v, pos1) => .ok (asI16 v, pos1)
    | .error e => .error e
  else readI16Raw s pos

/-- `read_i32`: raw fixed-width, or a narrowing cast of the varint in compressed mode. -/
def readI32 (s : ByteStream) (pos : Nat) : Except Err (Int × Nat) :=
  if s.compressed then
    match readVarI64 s pos with
    | .ok (v, pos1) => .ok (asI32 v, pos1)
    | .error e => .error e
  else readI32Raw s pos

/-- `read_i64`: raw fixed-width, or the varint in compressed mode. -/
def readI64 (s : ByteStream) (pos : Nat) : Except Err (Int × Nat) :=
  if s.compressed then readVarI64 s pos
  else readI64Raw s pos

/-- Modelled from the spec: the encoder side of the compressed-integer scheme (the
repository only contains the decoder). Seven data bits per byte, continuation in bit 7;
after eight groups the remaining value is emitted as a full ninth byte. `k` is the
number of 7-bit groups still allowed. -/
def encodeVarGroups : Nat → Nat → List Nat
  | u, 0 => [u % 256]
  | u, k + 1 => if u < 128 then [u] else (u % 128 + 128) :: encodeVarGroups (u / 128) k

/-- Modelled from the spec: encode a signed 64-bit value by encoding its unsigned
two's-complement representative in 7-bit groups. -/
def encodeVarI64 (x : Int) : List Nat :=
  encodeVarGroups (x % 18446744073709551616).toNat 8

/-! ### The compressed-integer codec round trip -/

theorem getElem_append_middle (pre : List Nat) (b : Nat) (suf : List Nat) :
    (pre ++ b :: suf)[pre.length]? = some b := by
  rw [List.getElem?_append_right (le_refl pre.length)]
  simp

theorem readU8_middle (pre suf : List Nat) (b : Nat) (f : Bool) (hb : b < 256) :
    readU8 ⟨pre ++ b :: suf, f⟩ pre.length = .ok (b, pre.length + 1) := by
  unfold readU8
  rw [show (⟨pre ++ b :: suf, f⟩ : ByteStream).data = pre ++ b :: suf from rfl,
    getElem_append_middle]
  simp [Nat.mod_eq_of_lt hb]

theorem readI8_middle (pre suf : List Nat) (b : Nat) (f : Bool) (hb : b < 256) :
    readI8 ⟨pre ++ b :: suf, f⟩ pre.length = .ok (asI8 b, pre.length + 1) := by
  unfold readI8
  rw [readU8_middle pre suf b f hb]

theorem readVarAux_last (s : ByteStream) (pos i : Nat) (ret b : Int) (pos1 : Nat)
    (hread : readI8 s pos = .ok (b, pos1)) :
    readVarI64Aux s 0 pos i ret = .ok (ret + asI64 (b % 256 * 2 ^ 56), pos1) := by
  unfold readVarI64Aux
  rw [hread]

theorem readVarAux_stop (s : ByteStream) (k pos i : Nat) (ret b : Int) (pos1 : Nat)
    (hread : readI8 s pos = .ok (b, pos1)) (hb : 0 ≤ b) :
    readVarI64Aux s (k + 1) pos i ret = .ok (ret + b % 128 * 2 ^ (7 * i), pos1) := by
  unfold readVarI64Aux
  rw [hread]
  simp [hb]

theorem readVarAux_step (s : ByteStream) (k pos i : Nat) (ret b : Int) (pos1 : Nat)
    (hread : readI8 s pos = .ok (b, pos1)) (hb : ¬ 0 ≤ b) :
    readVarI64Aux s (k + 1) pos i ret
      = readVarI64Aux s k pos1 (i + 1) (ret + b % 128 * 2 ^ (7 * i)) := by
  conv_lhs => unfold readVarI64Aux
  rw [hread]
  simp [hb]

set_option maxHeartbeats 1600000 in
set_option maxRecDepth 8000 in
theorem readVarAux_encode (k : Nat) :
    ∀ (u i : Nat) (ret : Int) (pre rest : List Nat) (f : Bool),
      i + k = 8 → u < 2 ^ (7 * k + 8) →
      ∃ r : Int,
        readVarI64Aux ⟨pre ++ encodeVarGroups u k ++ rest, f⟩ k pre.length i ret
          = .ok (r, pre.length + (encodeVarGroups u k).length)
        ∧ (r - ret) % 2 ^ 64 = ((u : Int) * 2 ^ (7 * i)) % 2 ^ 64
        ∧ -(2 ^ 63) ≤ r - ret
        ∧ r - ret ≤ 2 ^ (7 * i) * (2 ^ (7 * k) - 1) + (2 ^ 63 - 2 ^ 56) := by
  induction k with
  | zero =>
    intro u i ret pre rest f hik hu
    have hi : i = 8 := by omega
    subst hi
    have hu' : u < 256 := by
      have h8 : 2 ^ (7 * 0 + 8) = 256 := by norm_num
      omega
    have henc : encodeVarGroups u 0 = [u] := by
      simp [encodeVarGroups, Nat.mod_eq_of_lt hu']
    rw [henc]
    have hlist : pre ++ [u] ++ rest = pre ++ u :: rest := by simp
    rw [hlist]
    have hread := readI8_middle pre rest u f hu'
    have hcu : (u : Int) < 256 := by exact_mod_cast hu'
    refine ⟨ret + asI64 (asI8 u % 256 * 2 ^ 56), ?_, ?_, ?_, ?_⟩
    · rw [readVarAux_last _ _ _ _ _ _ hread]
      simp
    · unfold asI8 asI64
      omega
    · unfold asI8 asI64
      omega
    · unfold asI8 asI64
      have h78 : (7 : Nat) * 8 = 56 := by norm_num
      have h70 : (7 : Nat) * 0 = 0 := by norm_num
      rw [h78, h70]
      omega
  | succ k ih =>
    intro u i ret pre rest f hik hu
    by_cases hu128 : u < 128
    · have henc : encodeVarGroups u (k + 1) = [u] := by
        simp [encodeVarGroups, hu128]
      rw [henc]
      have hlist : pre ++ [u] ++ rest = pre ++ u :: rest := by simp
      rw [hlist]
      have hread := readI8_middle pre rest u f (by omega)
      have hasi : asI8 u = (u : Int) := by unfold asI8; omega
      have hmod128 : (u : Int) % 128 = (u : Int) := by omega
      refine ⟨ret + (u : Int) * 2 ^ (7 * i), ?_, ?_, ?_, ?_⟩
      · rw [readVarAux_stop _ k _ i _ _ _ hread (by rw [hasi]; positivity), hasi, hmod128]
        simp
      · simp
      · have hP : (0 : Int) ≤ (u : Int) * 2 ^ (7 * i) := by positivity
        omega
      · have hP : (0 : Int) < 2 ^ (7 * i) := by positivity
        have hQ : (128 : Int) ≤ 2 ^ (7 * (k + 1)) := by
          calc (128 : Int) = 2 ^ 7 := by norm_num
          _ ≤ 2 ^ (7 * (k + 1)) := by
            apply pow_le_pow_right₀ (by norm_num)
            omega
        have hu' : (u : Int) ≤ 127 := by exact_mod_cast Nat.lt_succ_iff.mp hu128
        have hD : (0 : Int) ≤ 2 ^ 63 - 2 ^ 56 := by norm_num
        have h1 : (u : Int) * 2 ^ (7 * i) ≤ 127 * 2 ^ (7 * i) :=
          mul_le_mul_of_nonneg_right hu' (le_of_lt hP)
        have h2 : (127 : Int) * 2 ^ (7 * i) ≤ (2 ^ (7 * (k + 1)) - 1) * 2 ^ (7 * i) :=
          mul_le_mul_of_nonneg_right (by linarith) (le_of_lt hP)
        calc ret + (u : Int) * 2 ^ (7 * i) - ret = (u : Int) * 2 ^ (7 * i) := by ring
        _ ≤ 127 * 2 ^ (7 * i) := h1
        _ ≤ (2 ^ (7 * (k + 1)) - 1) * 2 ^ (7 * i) := h2
        _ ≤ 2 ^ (7 * i) * (2 ^ (7 * (k + 1)) - 1) + (2 ^ 63 - 2 ^ 56) := by
          rw [mul_comm]
          linarith
    · have henc : encodeVarGroups u (k + 1) = (u % 128 + 128) :: encodeVarGroups (u / 128) k := by
        simp [encodeVarGroups, hu128]
      have hb0lt : u % 128 + 128 < 256 := by omega
      have hasi : asI8 ((u % 128 + 128 : Nat) : Int) = ((u % 128 + 128 : Nat) : Int) - 256 := by
        unfold asI8
        push_cast
        omega
      have hneg : ¬ (0 : Int) ≤ asI8 ((u % 128 + 128 : Nat) : Int) := by
        rw [hasi]; push_cast; omega
      have hm : asI8 ((u % 128 + 128 : Nat) : Int) % 128 = ((u % 128 : Nat) : Int) := by
        rw [hasi]; push_cast; omega
      have hudiv : u / 128 < 2 ^ (7 * k + 8) := by
        have h78 : 7 * (k + 1) + 8 = (7 * k + 8) + 7 := by ring
        rw [h78, pow_add] at hu
        have h27 : (2 : Nat) ^ 7 = 128 := by norm_num
        rw [h27] at hu
        exact (Nat.div_lt_iff_lt_mul (by norm_num)).mpr hu
      obtain ⟨r, hrun, hmod, hlo, hhi⟩ :=
        ih (u / 128) (i + 1) (ret + ((u % 128 : Nat) : Int) * 2 ^ (7 * i)) (pre ++ [u % 128 + 128]) rest f
          (by omega) hudiv
      have hp7 : (2 : Int) ^ (7 * (i + 1)) = 2 ^ (7 * i) * 128 := by
        have h1 : 7 * (i + 1) = 7 * i + 7 := by ring
        rw [h1, pow_add]; norm_num
      refine ⟨r, ?_, ?_, ?_, ?_⟩
      · rw [henc]
        have hsplit : pre ++ ((u % 128 + 128) :: encodeVarGroups (u / 128) k) ++ rest
            = pre ++ (u % 128 + 128) :: (encodeVarGroups (u / 128) k ++ rest) := by simp
        rw [hsplit]
        have hread := readI8_middle pre (encodeVarGroups (u / 128) k ++ rest) (u % 128 + 128) f hb0lt
        rw [readVarAux_step _ k _ i _ _ _ hread hneg, hm]
        have hl2 : pre ++ (u % 128 + 128) :: (encodeVarGroups (u / 128) k ++ rest)
            = (pre ++ [u % 128 + 128]) ++ encodeVarGroups (u / 128) k ++ rest := by simp
        have hp1 : pre.length + 1 = (pre ++ [u % 128 + 128]).length := by simp
        rw [hl2, hp1, hrun]
        have hlen : (pre ++ [u % 128 + 128]).length + (encodeVarGroups (u / 128) k).length
            = pre.length + ((u % 128 + 128) :: encodeVarGroups (u / 128) k).length := by
          simp
          omega
        rw [hlen]
      · have hr : r - ret
            = (r - (ret + ((u % 128 : Nat) : Int) * 2 ^ (7 * i))) + ((u % 128 : Nat) : Int) * 2 ^ (7 * i) := by
          ring
        have key : ((u / 128 : Nat) : Int) * 2 ^ (7 * (i + 1)) + ((u % 128 : Nat) : Int) * 2 ^ (7 * i)
            = (u : Int) * 2 ^ (7 * i) := by
          have h := Nat.div_add_mod u 128
          have hc : (128 * ((u / 128 : Nat) : Int) + ((u % 128 : Nat) : Int)) = (u : Int) := by
            exact_mod_cast congrArg (Nat.cast : Nat → Int) h
          rw [hp7]
          linear_combination (2 : Int) ^ (7 * i) * hc
        rw [hr, Int.add_emod, hmod, ← Int.add_emod, key]
      · have hP : (0 : Int) ≤ ((u % 128 : Nat) : Int) * 2 ^ (7 * i) := by positivity
        omega
      · have hP : (0 : Int) < 2 ^ (7 * i) := by positivity
        have hq7 : (2 : Int) ^ (7 * (k + 1)) = 2 ^ (7 * k) * 128 := by
          have h1 : 7 * (k + 1) = 7 * k + 7 := by ring
          rw [h1, pow_add]; norm_num
        have hm127 : ((u % 128 : Nat) : Int) ≤ 127 := by
          have : u % 128 < 128 := Nat.mod_lt _ (by norm_num)
          omega
        rw [hp7] at hhi
        rw [hq7]
        have h3 : ((u % 128 : Nat) : Int) * 2 ^ (7 * i) ≤ 127 * 2 ^ (7 * i) :=
          mul_le_mul_of_nonneg_right hm127 (le_of_lt hP)
        nlinarith [hhi, h3]

/-- C2: for every signed 64-bit integer, encoding with the 7-bit-group continuation scheme
and decoding with `read_var_i64` yields the integer back; the bytes `[0x85, 0xB0, 0x03]`
decode to `55301`. -/
theorem readVarI64_encode_roundtrip :
    (∀ (x : Int) (rest : List Nat) (f : Bool), -(2 ^ 63) ≤ x → x < 2 ^ 63 →
        readVarI64 ⟨encodeVarI64 x ++ rest, f⟩ 0 = .ok (x, (encodeVarI64 x).length))
    ∧ readVarI64 ⟨[0x85, 0xB0, 0x03], true⟩ 0 = .ok (55301, 3) := by
  constructor
  · intro x rest f hxlo hxhi
    have hM : (0 : Int) < 18446744073709551616 := by norm_num
    have h0 : (0 : Int) ≤ x % 18446744073709551616 := Int.emod_nonneg x (by norm_num)
    have h1 : x % 18446744073709551616 < 18446744073709551616 := Int.emod_lt_of_pos x hM
    have hu : (x % 18446744073709551616).toNat < 2 ^ (7 * 8 + 8) := by
      have h2 : (2 : Nat) ^ (7 * 8 + 8) = 18446744073709551616 := by norm_num
      omega
    obtain ⟨r, hrun, hmod, hrlo, hrhi⟩ :=
      readVarAux_encode 8 (x % 18446744073709551616).toNat 0 0 [] rest f (by norm_num) hu
    have hx : (((x % 18446744073709551616).toNat : Nat) : Int) = x % 18446744073709551616 :=
      Int.toNat_of_nonneg h0
    have hr : r = x := by
      rw [hx] at hmod
      omega
    subst hr
    simpa [readVarI64, encodeVarI64] using hrun
  · rfl

/-- Witness for C2: the round trip evaluated at the concrete value 55301. -/
theorem readVarI64_encode_roundtrip_witness :
    readVarI64 ⟨encodeVarI64 55301 ++ [], true⟩ 0 = .ok (55301, (encodeVarI64 55301).length) :=
  readVarI64_encode_roundtrip.1 55301 [] true (by norm_num) (by norm_num)

/-! ### Strings -/

/-- `StringType` returned by `read_string`. Decoded text is modelled as a Lean `String`. -/
inductive StringType where
  | null
  | empty
  | raw (s : String)
  | constantPool (idx : Int)

/-- The `i16 as u32` cast used for char-array code units (sign-extending). -/
def charCodeOfI16 (v : Int) : Nat := (v % 4294967296).toNat

/-- Validation of `String::from_utf8`: decode a byte list as UTF-8, rejecting overlong
forms, surrogates and out-of-range values. -/
def utf8Decode : List Nat → Option (List Char)
  | [] => some []
  | b :: rest =>
    if b < 0x80 then
      (utf8Decode rest).map (fun cs => Char.ofNat b :: cs)
    else if 0xC2 ≤ b ∧ b ≤ 0xDF then
      match rest with
      | b1 :: rest1 =>
        if 0x80 ≤ b1 ∧ b1 ≤ 0xBF then
          (utf8Decode rest1).map (fun cs => Char.ofNat ((b - 0xC0) * 64 + (b1 - 0x80)) :: cs)
        else none
      | [] => none
    else if 0xE0 ≤ b ∧ b ≤ 0xEF then
      match rest with
      | b1 :: b2 :: rest1 =>
        if (if b = 0xE0 then 0xA0 else 0x80) ≤ b1 ∧ b1 ≤ (if b = 0xED then 0x9F else 0xBF)
            ∧ 0x80 ≤ b2 ∧ b2 ≤ 0xBF then
          (utf8Decode rest1).map
            (fun cs => Char.ofNat ((b - 0xE0) * 4096 + (b1 - 0x80) * 64 + (b2 - 0x80)) :: cs)
        else none
      | _ => none
    else if 0xF0 ≤ b ∧ b ≤ 0xF4 then
      match rest with
      | b1 :: b2 :: b3 :: rest1 =>
        if (if b = 0xF0 then 0x90 else 0x80) ≤ b1 ∧ b1 ≤ (if b = 0xF4 then 0x8F else 0xBF)
            ∧ 0x80 ≤ b2 ∧ b2 ≤ 0xBF ∧ 0x80 ≤ b3 ∧ b3 ≤ 0xBF then
          (utf8Decode rest1).map
            (fun cs => Char.ofNat
              ((b - 0xF0) * 262144 + (b1 - 0x80) * 4096 + (b2 - 0x80) * 64 + (b3 - 0x80)) :: cs)
        else none
      | _ => none
    else none

/-- One unit of the char-array string encoding: `read_i16` cast to `u32` and checked by
`char::try_from`, an invalid unit failing with `InvalidString`. -/
def readCharArrayUnit (s : ByteStream) (pos : Nat) : Except Err (Char × Nat) :=
  match readI16 s pos with
  | .error e => .error e
  | .ok (v, pos1) =>
    if (charCodeOfI16 v).isValidChar then .ok (Char.ofNat (charCodeOfI16 v), pos1)
    else .error .invalidString

/-- The char-array loop of `read_string`. -/
def readCharArray (s : ByteStream) : Nat → Nat → Except Err (List Char × Nat)
  | pos, 0 => .ok ([], pos)
  | pos, n + 1 =>
    match readCharArrayUnit s pos with
    | .error e => .error e
    | .ok (c, pos1) =>
      match readCharArray s pos1 n with
      | .error e => .error e
      | .ok (cs, pos2) => .ok (c :: cs, pos2)

/-- The byte loop of `read_string` (each byte read via `read_i8` and used as `u8`). -/
def readByteList (s : ByteStream) : Nat → Nat → Except Err (List Nat × Nat)
  | pos, 0 => .ok ([], pos)
  | pos, n + 1 =>
    match readU8 s pos with
    | .error e => .error e
    | .ok (b, pos1) =>
      match readByteList s pos1 n with
      | .error e => .error e
      | .ok (bs, pos2) => .ok (b :: bs, pos2)

/-- `ByteStream::read_string`: tag byte, then one of the six encodings. -/
def readString (s : ByteStream) (pos : Nat) : Except Err (StringType × Nat) :=
  match readI8 s pos with
  | .error e => .error e
  | .ok (enc, pos1) =>
    if enc = 0 then .ok (.null, pos1)
    else if enc = 1 then .ok (.empty, pos1)
    else if enc = 2 then
      match readI64 s pos1 with
      | .error e => .error e
      | .ok (idx, pos2) => .ok (.constantPool idx, pos2)
    else
      match readI32 s pos1 with
      | .error e => .error e
      | .ok (size, pos2) =>
        if enc = 4 then
          match readCharArray s pos2 (u64OfI32 size) with
          | .error e => .error e
          | .ok (cs, pos3) => .ok (.raw (String.mk cs), pos3)
        else
          match readByteList s pos2 (u64OfI32 size) with
          | .error e => .error e
          | .ok (bs, pos3) =>
            if enc = 5 then .ok (.raw (String.mk (bs.map Char.ofNat)), pos3)
            else if enc = 3 then
              match utf8Decode bs with
              | some cs => .ok (.raw (String.mk cs), pos3)
              | none => .error .invalidString
            else .error .invalidString

/-- Modelled from the spec: `ByteStream::read_char` is not present under src/ (only its
call site in `ValueDescriptor::try_read_primitive` is). Per the spec, a `char` decodes
from a 16-bit code unit with the same convention as the char-array string encoding, an
invalid unit being reported as `InvalidChar`. -/
def readChar (s : ByteStream) (pos : Nat) : Except Err (Char × Nat) :=
  match readI16 s pos with
  | .error e => .error e
  | .ok (v, pos1) =>
    if (charCodeOfI16 v).isValidChar then .ok (Char.ofNat (charCodeOfI16 v), pos1)
    else .error .invalidChar

/-! ### Type metadata -/

/-- Annotation-derived unit of a field (`type_descriptor::Unit`). -/
inductive JfrUnit where
  | byte
  | percentUnity
  | addressUnity
  | hz
  | nanosecond
  | millisecond
  | second
  | epochNano
  | epochMilli
  | epochSecond
  deriving DecidableEq

/-- Annotation-derived tick unit of a field (`type_descriptor::TickUnit`). -/
inductive TickUnit where
  | timespan
  | timestamp
  deriving DecidableEq

/-- `type_descriptor::FieldDescriptor`. -/
structure FieldDescriptor where
  classId : Int
  name : String
  label : Option String
  description : Option String
  experimental : Bool
  constantPool : Bool
  arrayType : Bool
  unsigned : Bool
  unit : Option JfrUnit
  tickUnit : Option TickUnit

/-- `type_descriptor::TypeDescriptor`. -/
structure TypeDescriptor where
  classId : Int
  name : String
  superType : Option String
  simpleType : Bool
  fields : List FieldDescriptor
  label : Option String
  description : Option String
  experimental : Bool
  category : List String

/-- The loop of `TypeDescriptor::get_field`: first field with the given name, with its
index. -/
def findFieldAux : List FieldDescriptor → Nat → String → Option (Nat × FieldDescriptor)
  | [], _, _ => none
  | fd :: rest, i, n => if fd.name = n then some (i, fd) else findFieldAux rest (i + 1) n

/-- `TypeDescriptor::get_field`. -/
def TypeDescriptor.getField (td : TypeDescriptor) (name : String) :
    Option (Nat × FieldDescriptor) :=
  findFieldAux td.fields 0 name

/-- `type_descriptor::TypePool` (the `FxHashMap` is modelled as an association list). -/
structure TypePool where
  inner : List (Int × TypeDescriptor)

/-- `TypePool::get`. -/
def TypePool.get (p : TypePool) (classId : Int) : Option TypeDescriptor :=
  (p.inner.find? (fun e => e.1 == classId)).map (·.2)

/-- `StringTable`: an ordered table of optional interned strings. -/
structure StringTable where
  strings : List (Option String)

/-- `StringTable::get`: index with `idx as usize`; an out-of-range or null entry is
`InvalidStringIndex(idx)`. -/
def StringTable.get (t : StringTable) (idx : Int) : Except Err String :=
  match t.strings[u64OfI32 idx]? with
  | some (some s) => .ok s
  | _ => .error (.invalidStringIndex idx)

/-- `metadata::Metadata`. -/
structure Metadata where
  stringTable : StringTable
  typePool : TypePool

/-! ### Values and the constant pool -/

/-- `value_descriptor::Primitive`. Floats are carried as their bit patterns. -/
inductive Primitive where
  | integer (v : Int)
  | long (v : Int)
  | float (bits : Nat)
  | double (bits : Nat)
  | character (c : Char)
  | boolean (b : Bool)
  | short (v : Int)
  | byte (v : Int)
  | nullString
  | string (s : String)

/-- `value_descriptor::ValueDescriptor` (the `Object` struct is inlined into the
`object` constructor as its two fields). -/
inductive ValueDescriptor where
  | primitive (p : Primitive)
  | object (classId : Int) (fields : List ValueDescriptor)
  | array (elems : List ValueDescriptor)
  | constantPool (classId : Int) (constantIndex : Int)

/-- Modelled from the spec: the constant pool maps `(class id, constant index)` to a
decoded value; `get` returns the stored value or nothing. The implementing module is
commented out under src/ (only its callers and tests remain), so the mapping is
modelled as an association list per §4.5 of the spec. -/
structure ConstantPool where
  inner : List ((Int × Int) × ValueDescriptor)

/-- Modelled from the spec: `ConstantPool::get` looks up one entry without recursive
resolution. -/
def ConstantPool.get (cp : ConstantPool) (classId constantIndex : Int) :
    Option ValueDescriptor :=
  (cp.inner.find? (fun e => e.1.1 == classId && e.1.2 == constantIndex)).map (·.2)

/-- `reader::ChunkHeader`. -/
structure ChunkHeader where
  chunkSize : Int
  constantPoolOffset : Int
  metadataOffset : Int
  startTimeNanos : Int
  durationNanos : Int
  startTicks : Int
  ticksPerSecond : Int
  features : Int

/-- `ChunkHeader::HEADER_SIZE`. -/
def headerSize : Nat := 68

/-- `ChunkHeader::int_encoding`: compressed iff bit 0 of the feature flags is set. -/
def ChunkHeader.intEncodingCompressed (h : ChunkHeader) : Bool :=
  h.features.land 1 != 0

/-- `ChunkHeader::chunk_body_size` (`chunk_size as u64 - 68`, wrapping). -/
def ChunkHeader.chunkBodySize (h : ChunkHeader) : Nat :=
  u64Sub (u64OfI64 h.chunkSize) headerSize

/-- `ChunkHeader::body_start_offset`. -/
def ChunkHeader.bodyStartOffset (_h : ChunkHeader) : Nat := headerSize

/-- `reader::Chunk`. -/
structure Chunk where
  header : ChunkHeader
  metadata : Metadata
  constantPool : ConstantPool

/-! ### The schema-driven value decoder -/

/-- Fuel exhaustion marker for the unbounded recursion of `ValueDescriptor::try_new`,
kept apart from the reader errors. -/
inductive DErr where
  | err (e : Err)
  | fuel

/-- `ValueDescriptor::try_read_primitive`: decode a built-in primitive type by name, or
report that the type is composite (`Ok(None)`). -/
def tryReadPrimitive (s : ByteStream) (pos : Nat) (td : TypeDescriptor) :
    Except Err (Option (ValueDescriptor × Nat)) :=
  if td.name = "int" then
    match readI32 s pos with
    | .error e => .error e
    | .ok (v, pos1) => .ok (some (.primitive (.integer v), pos1))
  else if td.name = "long" then
    match readI64 s pos with
    | .error e => .error e
    | .ok (v, pos1) => .ok (some (.primitive (.long v), pos1))
  else if td.name = "float" then
    match readF32 s pos with
    | .error e => .error e
    | .ok (v, pos1) => .ok (some (.primitive (.float v), pos1))
  else if td.name = "double" then
    match readF64 s pos with
    | .error e => .error e
    | .ok (v, pos1) => .ok (some (.primitive (.double v), pos1))
  else if td.name = "char" then
    match readChar s pos with
    | .error e => .error e
    | .ok (c, pos1) => .ok (some (.primitive (.character c), pos1))
  else if td.name = "boolean" then
    match readI8 s pos with
    | .error e => .error e
    | .ok (v, pos1) => .ok (some (.primitive (.boolean (v != 0)), pos1))
  else if td.name = "short" then
    match readI16 s pos with
    | .error e => .error e
    | .ok (v, pos1) => .ok (some (.primitive (.short v), pos1))
  else if td.name = "byte" then
    match readI8 s pos with
    | .error e => .error e
    | .ok (v, pos1) => .ok (some (.primitive (.byte v), pos1))
  else if td.name = "java.lang.String" then
    match readString s pos with
    | .error e => .error e
    | .ok (.null, pos1) => .ok (some (.primitive .nullString, pos1))
    | .ok (.empty, pos1) => .ok (some (.primitive (.string ""), pos1))
    | .ok (.raw str, pos1) => .ok (some (.primitive (.string str), pos1))
    | .ok (.constantPool idx, pos1) => .ok (some (.constantPool td.classId idx, pos1))
  else .ok none

/-- The mutually recursive group of `ValueDescriptor::try_new`,
`try_read_field_single` and the field/array loops, bundled so that the recursion is
primitive in the fuel (one unit of fuel per nested call). -/
structure Decoders where
  tryNew : ByteStream → Nat → Int → Metadata → Except DErr (ValueDescriptor × Nat)
  readFields : ByteStream → Nat → List FieldDescriptor → Metadata →
    Except DErr (List ValueDescriptor × Nat)
  readFieldValue : ByteStream → Nat → FieldDescriptor → Metadata →
    Except DErr (ValueDescriptor × Nat)
  readArrayElems : ByteStream → Nat → Nat → FieldDescriptor → Metadata →
    Except DErr (List ValueDescriptor × Nat)
  readFieldSingle : ByteStream → Nat → FieldDescriptor → Metadata →
    Except DErr (ValueDescriptor × Nat)

/-- The fuel-indexed decoder group (see `Decoders`). -/
def decoders : Nat → Decoders
  | 0 =>
    { tryNew := fun _ _ _ _ => .error .fuel
      readFields := fun _ _ _ _ => .error .fuel
      readFieldValue := fun _ _ _ _ => .error .fuel
      readArrayElems := fun _ _ _ _ _ => .error .fuel
      readFieldSingle := fun _ _ _ _ => .error .fuel }
  | fuel + 1 =>
    let d := decoders fuel
    { tryNew := fun s pos classId m =>
        match m.typePool.get classId with
        | none => .error (.err (.classNotFound classId))
        | some td =>
          match tryReadPrimitive s pos td with
          | .error e => .error (.err e)
          | .ok (some (v, pos1)) => .ok (v, pos1)
          | .ok none =>
            match d.readFields s pos td.fields m with
            | .error e => .error e
            | .ok (vs, pos1) => .ok (.object td.classId vs, pos1)
      readFields := fun s pos fds m =>
        match fds with
        | [] => .ok ([], pos)
        | fd :: rest =>
          match d.readFieldValue s pos fd m with
          | .error e => .error e
          | .ok (v, pos1) =>
            match d.readFields s pos1 rest m with
            | .error e => .error e
            | .ok (vs, pos2) => .ok (v :: vs, pos2)
      readFieldValue := fun s pos fd m =>
        if fd.arrayType then
          match readI32 s pos with
          | .error e => .error (.err e)
          | .ok (count, pos1) =>
            match d.readArrayElems s pos1 (u64OfI32 count) fd m with
            | .error e => .error e
            | .ok (vs, pos2) => .ok (.array vs, pos2)
        else d.readFieldSingle s pos fd m
      readArrayElems := fun s pos n fd m =>
        match n with
        | 0 => .ok ([], pos)
        | n + 1 =>
          match d.readFieldSingle s pos fd m with
          | .error e => .error e
          | .ok (v, pos1) =>
            match d.readArrayElems s pos1 n fd m with
            | .error e => .error e
            | .ok (vs, pos2) => .ok (v :: vs, pos2)
      readFieldSingle := fun s pos fd m =>
        if fd.constantPool then
          match readI64 s pos with
          | .error e => .error (.err e)
          | .ok (idx, pos1) => .ok (.constantPool fd.classId idx, pos1)
        else d.tryNew s pos fd.classId m }

/-- `ValueDescriptor::try_new` at a given fuel. -/
def tryNew (fuel : Nat) (s : ByteStream) (pos : Nat) (classId : Int) (m : Metadata) :
    Except DErr (ValueDescriptor × Nat) :=
  (decoders fuel).tryNew s pos classId m

/-- The field loop of `ValueDescriptor::try_new` at a given fuel. -/
def readFields (fuel : Nat) (s : ByteStream) (pos : Nat) (fds : List FieldDescriptor)
    (m : Metadata) : Except DErr (List ValueDescriptor × Nat) :=
  (decoders fuel).readFields s pos fds m

/-- The per-field step (array or scalar) of `ValueDescriptor::try_new` at a given fuel. -/
def readFieldValue (fuel : Nat) (s : ByteStream) (pos : Nat) (fd : FieldDescriptor)
    (m : Metadata) : Except DErr (ValueDescriptor × Nat) :=
  (decoders fuel).readFieldValue s pos fd m

/-! ### C1: decoded objects carry one value per declared field, in schema order -/

/-- The closed set of built-in primitive type names recognised by
`try_read_primitive`. -/
def primitiveNames : List String :=
  ["int", "long", "float", "double", "char", "boolean", "short", "byte", "java.lang.String"]

theorem tryReadPrimitive_not_primitive (s : ByteStream) (pos : Nat) (td : TypeDescriptor)
    (h : td.name ∉ primitiveNames) :
    tryReadPrimitive s pos td = .ok none := by
  simp only [primitiveNames, List.mem_cons, List.not_mem_nil, or_false, not_or] at h
  obtain ⟨h1, h2, h3, h4, h5, h6, h7, h8, h9⟩ := h
  simp [tryReadPrimitive, h1, h2, h3, h4, h5, h6, h7, h8, h9]

/-- The sequential decode of a field list: the i-th produced value is read for the i-th
declared field, from the stream position reached by its predecessors. -/
inductive DecodesFields (s : ByteStream) (m : Metadata) :
    Nat → List FieldDescriptor → List ValueDescriptor → Nat → Prop where
  | nil (pos : Nat) : DecodesFields s m pos [] [] pos
  | cons (pos pos1 pos2 : Nat) (fd : FieldDescriptor) (fds : List FieldDescriptor)
      (v : ValueDescriptor) (vs : List ValueDescriptor) (fuel : Nat)
      (hv : readFieldValue fuel s pos fd m = .ok (v, pos1))
      (hrest : DecodesFields s m pos1 fds vs pos2) :
      DecodesFields s m pos (fd :: fds) (v :: vs) pos2

theorem readFields_spec (fuel : Nat) :
    ∀ (s : ByteStream) (pos : Nat) (fds : List FieldDescriptor) (m : Metadata)
      (vs : List ValueDescriptor) (pos2 : Nat),
      readFields fuel s pos fds m = .ok (vs, pos2) →
      vs.length = fds.length ∧ DecodesFields s m pos fds vs pos2 := by
  induction fuel with
  | zero =>
    intro s pos fds m vs pos2 h
    simp [readFields, decoders] at h
  | succ fuel ih =>
    intro s pos fds m vs pos2 h
    cases fds with
    | nil =>
      have h' : ([] : List ValueDescriptor) = vs ∧ pos = pos2 := by
        simpa [readFields, decoders] using h
      obtain ⟨rfl, rfl⟩ := h'
      exact ⟨rfl, .nil pos⟩
    | cons fd rest =>
      simp only [readFields, decoders] at h
      split at h
      · simp at h
      · rename_i v pos1 hv
        split at h
        · simp at h
        · rename_i vs1 posq hr
          simp only [Except.ok.injEq, Prod.mk.injEq] at h
          obtain ⟨rfl, rfl⟩ := h
          obtain ⟨hlen, hdec⟩ := ih s pos1 rest m vs1 posq hr
          exact ⟨by simp [hlen], .cons pos pos1 posq fd rest v vs1 fuel hv hdec⟩

/-- C1: a successfully decoded value of a composite (non-primitive) class is an `Object`
whose fields list has exactly one entry per declared field of the class descriptor,
produced by decoding the declared fields in schema order. -/
theorem tryNew_object_fields_match_schema
    (fuel : Nat) (s : ByteStream) (pos : Nat) (classId : Int) (m : Metadata)
    (td : TypeDescriptor) (v : ValueDescriptor) (pos1 : Nat)
    (hget : m.typePool.get classId = some td)
    (hname : td.name ∉ primitiveNames)
    (htry : tryNew fuel s pos classId m = .ok (v, pos1)) :
    ∃ fvs : List ValueDescriptor,
      v = .object td.classId fvs ∧ fvs.length = td.fields.length ∧
      DecodesFields s m pos td.fields fvs pos1 := by
  cases fuel with
  | zero => simp [tryNew, decoders] at htry
  | succ fuel =>
    simp only [tryNew, decoders, hget, tryReadPrimitive_not_primitive s pos td hname] at htry
    split at htry
    · simp at htry
    · rename_i vs posq hr
      simp only [Except.ok.injEq, Prod.mk.injEq] at htry
      obtain ⟨rfl, rfl⟩ := htry
      obtain ⟨hlen, hdec⟩ := readFields_spec fuel s pos td.fields m vs posq hr
      exact ⟨vs, rfl, hlen, hdec⟩

/-- A two-field composite class used by concrete witnesses. -/
def tdIntW : TypeDescriptor := ⟨1, "int", none, true, [], none, none, false, []⟩

/-- A primitive boolean class used by concrete witnesses. -/
def tdBoolW : TypeDescriptor := ⟨2, "boolean", none, true, [], none, none, false, []⟩

/-- Field `a : int` of the witness class. -/
def fdAW : FieldDescriptor := ⟨1, "a", none, none, false, false, false, false, none, none⟩

/-- Field `b : boolean` of the witness class. -/
def fdBW : FieldDescriptor := ⟨2, "b", none, none, false, false, false, false, none, none⟩

/-- The composite witness class `demo.Foo { a : int, b : boolean }`. -/
def tdFooW : TypeDescriptor := ⟨100, "demo.Foo", none, false, [fdAW, fdBW], none, none, false, []⟩

/-- Witness metadata: three registered classes. -/
def metaW : Metadata := ⟨⟨[]⟩, ⟨[(1, tdIntW), (2, tdBoolW), (100, tdFooW)]⟩⟩

/-- Witness stream: a big-endian `int` 7 followed by a `boolean` 1, raw encoding. -/
def streamW : ByteStream := ⟨[0, 0, 0, 7, 1], false⟩

/-- Witness for C1: decoding `demo.Foo` from the witness stream yields an object with
exactly its two declared fields, in order. -/
theorem tryNew_object_fields_match_schema_witness :
    ∃ fvs : List ValueDescriptor,
      ValueDescriptor.object 100 [.primitive (.integer 7), .primitive (.boolean true)]
          = .object tdFooW.classId fvs
        ∧ fvs.length = tdFooW.fields.length
        ∧ DecodesFields streamW metaW 0 tdFooW.fields fvs 5 :=
  tryNew_object_fields_match_schema 10 streamW 0 100 metaW tdFooW
    (.object 100 [.primitive (.integer 7), .primitive (.boolean true)]) 5
    rfl (by decide) rfl

/-! ### C10: boolean decoding -/

/-- C10: decoding a type named `boolean` reads exactly one byte; any nonzero byte value
yields `Boolean(true)` and only the zero byte yields `Boolean(false)`. -/
theorem boolean_decode_one_byte (s : ByteStream) (pos : Nat) (td : TypeDescriptor) (b : Nat)
    (hname : td.name = "boolean") (hb : s.data[pos]? = some b) (hlt : b < 256) :
    tryReadPrimitive s pos td = .ok (some (.primitive (.boolean (b != 0)), pos + 1)) := by
  have hread : readI8 s pos = .ok (asI8 b, pos + 1) := by
    simp [readI8, readU8, hb, Nat.mod_eq_of_lt hlt]
  have hbool : ((asI8 b != 0) : Bool) = ((b != 0) : Bool) := by
    by_cases hb0 : b = 0
    · subst hb0
      simp [asI8]
    · have h1 : asI8 b ≠ 0 := by unfold asI8; omega
      rw [bne_iff_ne.mpr h1, bne_iff_ne.mpr hb0]
  simp [tryReadPrimitive, hname, hread, hbool]

/-- Witness for C10: byte 2 decodes to `Boolean(true)` consuming one byte. -/
theorem boolean_decode_one_byte_witness :
    tryReadPrimitive ⟨[2], true⟩ 0 tdBoolW
      = .ok (some (.primitive (.boolean ((2 : Nat) != 0)), 0 + 1)) :=
  boolean_decode_one_byte ⟨[2], true⟩ 0 tdBoolW 2 rfl rfl (by norm_num)

/-! ### C8: char decoding uses the 16-bit code-unit convention -/

theorem readExact_succ (s : ByteStream) (pos n b pos1 : Nat)
    (h : readU8 s pos = .ok (b, pos1)) :
    readExact s pos (n + 1) =
      match readExact s pos1 n with
      | .error e => .error e
      | .ok (bs, pos2) => .ok (b :: bs, pos2) := by
  conv_lhs => unfold readExact
  rw [h]

/-- C8: a type named `char` decodes through `read_char`, which consumes a 16-bit code
unit under exactly the convention of the char-array string encoding, not an `f32`.
First conjunct: the `char` branch of `try_read_primitive` is `read_char`. Second
conjunct: `read_char` succeeds exactly as one char-array unit does, with the same
character and stream position. Third conjunct: in raw encoding, `read_char` consumes
exactly the two bytes at the cursor and returns their big-endian 16-bit value. -/
theorem char_decode_16bit :
    (∀ (s : ByteStream) (pos : Nat) (td : TypeDescriptor), td.name = "char" →
      tryReadPrimitive s pos td =
        match readChar s pos with
        | .error e => .error e
        | .ok (c, pos1) => .ok (some (.primitive (.character c), pos1)))
    ∧ (∀ (s : ByteStream) (pos : Nat) (c : Char) (pos1 : Nat),
        readChar s pos = .ok (c, pos1) ↔ readCharArrayUnit s pos = .ok (c, pos1))
    ∧ (∀ (s : ByteStream) (pos : Nat) (b0 b1 : Nat), s.compressed = false →
        s.data[pos]? = some b0 → s.data[pos + 1]? = some b1 → b0 < 128 → b1 < 256 →
        readChar s pos = .ok (Char.ofNat (b0 * 256 + b1), pos + 2)) := by
  refine ⟨?_, ?_, ?_⟩
  · intro s pos td hname
    simp [tryReadPrimitive, hname]
  · intro s pos c pos1
    unfold readChar readCharArrayUnit
    cases h : readI16 s pos with
    | error e => simp
    | ok p =>
      obtain ⟨v, p1⟩ := p
      by_cases hv : (charCodeOfI16 v).isValidChar
      · simp [hv]
      · simp [hv]
  · intro s pos b0 b1 hc hb0 hb1 h128 h256
    have h0 : readU8 s pos = .ok (b0, pos + 1) := by
      simp [readU8, hb0, Nat.mod_eq_of_lt (by omega : b0 < 256)]
    have h1 : readU8 s (pos + 1) = .ok (b1, pos + 2) := by
      simp [readU8, hb1, Nat.mod_eq_of_lt h256]
    have hex : readExact s pos 2 = .ok ([b0, b1], pos + 2) := by
      rw [show (2 : Nat) = 1 + 1 from rfl, readExact_succ s pos 1 b0 (pos + 1) h0,
        readExact_succ s (pos + 1) 0 b1 (pos + 2) h1]
      rfl
    have hbe : beNat [b0, b1] = b0 * 256 + b1 := by
      simp [beNat]
    have has : asI16 ((b0 : Int) * 256 + (b1 : Int)) = (b0 : Int) * 256 + (b1 : Int) := by
      unfold asI16
      omega
    have hcode : charCodeOfI16 ((b0 : Int) * 256 + (b1 : Int)) = b0 * 256 + b1 := by
      unfold charCodeOfI16
      omega
    have hvalid : (b0 * 256 + b1).isValidChar := Or.inl (by omega)
    simp [readChar, readI16, hc, readI16Raw, hex, hbe, has, hcode, hvalid]

/-- Witness for C8: in raw encoding the bytes `[0, 65]` decode as the char `A` with the
cursor advanced by two. -/
theorem char_decode_16bit_witness :
    readChar ⟨[0, 65], false⟩ 0 = .ok (Char.ofNat (0 * 256 + 65), 0 + 2) :=
  char_decode_16bit.2.2 ⟨[0, 65], false⟩ 0 0 65 rfl rfl rfl (by norm_num) (by norm_num)

/-! ### C7: string-table lookup -/

/-- C7: `StringTable::get` returns the stored string exactly when the `i32` index is in
range and the entry there is non-null; a negative index, an out-of-range index
(`getElem?` returning nothing) and a null entry all fail with `InvalidStringIndex(i)`.
The table is assumed shorter than `2 ^ 63` entries, as any real table is, so that the
sign-extending `as usize` cast of a negative index lands past the end. -/
theorem stringTable_get_spec (t : StringTable) (i : Int)
    (hlo : -(2 ^ 31) ≤ i) (hhi : i < 2 ^ 31) (hlen : t.strings.length < 2 ^ 63) :
    (∀ str : String, 0 ≤ i → t.strings[i.toNat]? = some (some str) → t.get i = .ok str)
    ∧ (i < 0 → t.get i = .error (.invalidStringIndex i))
    ∧ (0 ≤ i → t.strings[i.toNat]? = none → t.get i = .error (.invalidStringIndex i))
    ∧ (0 ≤ i → t.strings[i.toNat]? = some none →
        t.get i = .error (.invalidStringIndex i)) := by
  refine ⟨?_, ?_, ?_, ?_⟩
  · intro str hpos hentry
    have hu : u64OfI32 i = i.toNat := by unfold u64OfI32; omega
    rw [StringTable.get, hu, hentry]
  · intro hneg
    have hu : t.strings.length ≤ u64OfI32 i := by unfold u64OfI32; omega
    rw [StringTable.get, List.getElem?_eq_none hu]
  · intro hpos hentry
    have hu : u64OfI32 i = i.toNat := by unfold u64OfI32; omega
    rw [StringTable.get, hu, hentry]
  · intro hpos hentry
    have hu : u64OfI32 i = i.toNat := by unfold u64OfI32; omega
    rw [StringTable.get, hu, hentry]

/-- Witness for C7: a concrete two-entry table with a null hole. -/
theorem stringTable_get_spec_witness :
    StringTable.get ⟨[some "hello", none]⟩ 0 = .ok "hello" :=
  (stringTable_get_spec ⟨[some "hello", none]⟩ 0 (by norm_num) (by norm_num)
    (by norm_num)).1 "hello" (by norm_num) rfl

/-! ### C9: field navigation performs at most a single pool dereference -/

/-- `ValueDescriptor::get_object_field`: find the field index by name in the type
descriptor, take that child, and dereference it through the constant pool exactly once
when it is a pool reference. -/
def getObjectField (classId : Int) (fields : List ValueDescriptor) (name : String)
    (chunk : Chunk) : Option ValueDescriptor :=
  let res := ((chunk.metadata.typePool.get classId).bind
    (fun c => c.getField name)).bind (fun p => fields[p.1]?)
  match res with
  | some (.constantPool c x) => chunk.constantPool.get c x
  | _ => res

/-- `ValueDescriptor::get_field`. -/
def ValueDescriptor.getField (v : ValueDescriptor) (name : String) (chunk : Chunk) :
    Option ValueDescriptor :=
  match v with
  | .object classId fields => getObjectField classId fields name chunk
  | .constantPool classId constantIndex =>
    match chunk.constantPool.get classId constantIndex with
    | some (.object cid fs) => getObjectField cid fs name chunk
    | _ => none
  | _ => none

/-- C9: `get_field` performs at most one constant-pool dereference. On an object, a
stored pool reference is resolved exactly once, the stored pool value being returned
as is even when it is itself a reference, and a non-reference child is returned
directly; on a pool-reference receiver the reference is resolved once and the lookup
recurses into the resolved object, any non-object resolution yielding nothing; a
primitive or array receiver yields nothing. -/
theorem getField_single_deref :
    (∀ (chunk : Chunk) (cid : Int) (fields : List ValueDescriptor) (name : String)
        (td : TypeDescriptor) (i : Nat) (fd : FieldDescriptor) (c x : Int)
        (w : ValueDescriptor),
      chunk.metadata.typePool.get cid = some td →
      td.getField name = some (i, fd) →
      fields[i]? = some (.constantPool c x) →
      chunk.constantPool.get c x = some w →
      ValueDescriptor.getField (.object cid fields) name chunk = some w)
    ∧ (∀ (chunk : Chunk) (cid : Int) (fields : List ValueDescriptor) (name : String)
        (td : TypeDescriptor) (i : Nat) (fd : FieldDescriptor) (w : ValueDescriptor),
      chunk.metadata.typePool.get cid = some td →
      td.getField name = some (i, fd) →
      fields[i]? = some w → (∀ c x : Int, w ≠ .constantPool c x) →
      ValueDescriptor.getField (.object cid fields) name chunk = some w)
    ∧ (∀ (chunk : Chunk) (c x : Int) (name : String) (cid : Int)
        (fields : List ValueDescriptor),
      chunk.constantPool.get c x = some (.object cid fields) →
      ValueDescriptor.getField (.constantPool c x) name chunk
        = ValueDescriptor.getField (.object cid fields) name chunk)
    ∧ (∀ (chunk : Chunk) (c x : Int) (name : String),
      chunk.constantPool.get c x = none →
      ValueDescriptor.getField (.constantPool c x) name chunk = none)
    ∧ (∀ (chunk : Chunk) (c x : Int) (name : String) (w : ValueDescriptor),
      chunk.constantPool.get c x = some w →
      (∀ (cid : Int) (fields : List ValueDescriptor), w ≠ .object cid fields) →
      ValueDescriptor.getField (.constantPool c x) name chunk = none)
    ∧ (∀ (chunk : Chunk) (p : Primitive) (name : String),
      ValueDescriptor.getField (.primitive p) name chunk = none)
    ∧ (∀ (chunk : Chunk) (a : List ValueDescriptor) (name : String),
      ValueDescriptor.getField (.array a) name chunk = none) := by
  refine ⟨?_, ?_, ?_, ?_, ?_, ?_, ?_⟩
  · intro chunk cid fields name td i fd c x w hty hfd hchild hpool
    simp [ValueDescriptor.getField, getObjectField, hty, hfd, hchild, hpool]
  · intro chunk cid fields name td i fd w hty hfd hchild hw
    cases w with
    | constantPool c x => exact absurd rfl (hw c x)
    | primitive p => simp [ValueDescriptor.getField, getObjectField, hty, hfd, hchild]
    | object oc ofs => simp [ValueDescriptor.getField, getObjectField, hty, hfd, hchild]
    | array a => simp [ValueDescriptor.getField, getObjectField, hty, hfd, hchild]
  · intro chunk c x name cid fields hpool
    simp [ValueDescriptor.getField, hpool]
  · intro chunk c x name hpool
    simp [ValueDescriptor.getField, hpool]
  · intro chunk c x name w hpool hw
    cases w with
    | object oc ofs => exact absurd rfl (hw oc ofs)
    | constantPool wc wx => simp [ValueDescriptor.getField, hpool]
    | primitive p => simp [ValueDescriptor.getField, hpool]
    | array a => simp [ValueDescriptor.getField, hpool]
  · intro chunk p name
    simp [ValueDescriptor.getField]
  · intro chunk a name
    simp [ValueDescriptor.getField]

/-- A witness class with one pool-backed field `f`. -/
def fdRefW : FieldDescriptor := ⟨7, "f", none, none, false, true, false, false, none, none⟩

/-- The witness class `demo.Bar { f : pooled class 7 }`. -/
def tdBarW : TypeDescriptor := ⟨200, "demo.Bar", none, false, [fdRefW], none, none, false, []⟩

/-- A witness chunk whose pool stores, at `(7, 3)`, a value that is itself a pool
reference to `(7, 9)`. -/
def chunkW : Chunk :=
  ⟨⟨80, 0, 0, 0, 0, 0, 0, 0⟩,
    ⟨⟨[]⟩, ⟨[(200, tdBarW)]⟩⟩,
    ⟨[((7, 3), .constantPool 7 9)]⟩⟩

/-- Witness for C9: looking up `f` dereferences the stored reference `(7, 3)` exactly
once, returning the still-unresolved reference `(7, 9)` stored in the pool. -/
theorem getField_single_deref_witness :
    ValueDescriptor.getField (.object 200 [.constantPool 7 3]) "f" chunkW
      = some (.constantPool 7 9) :=
  getField_single_deref.1 chunkW 200 [.constantPool 7 3] "f" tdBarW 0 fdRefW 7 3
    (.constantPool 7 9) rfl rfl rfl rfl

/-! ### C4: missing constant-pool entries -/

/-- Outcome of an operation that can panic (`Option::expect`). -/
inductive PanicOr (α : Type) where
  | panics (msg : String)
  | ok (a : α)

/-- `Accessor::get_resolved`: a pool reference is replaced by the pool entry it points
to, and the `.expect` call panics when the entry is missing; every other value is
returned unchanged. Only the viewed value is modelled; the accessor's chunk reference
is unchanged by the operation. -/
def getResolved (chunk : Chunk) (v : ValueDescriptor) : PanicOr ValueDescriptor :=
  match v with
  | .constantPool classId constantIndex =>
    match chunk.constantPool.get classId constantIndex with
    | some w => .ok w
    | none => .panics "invalid constant pool entry"
  | w => .ok w

/-- The message built by `Deserializer::deserialize_any` for an unresolvable pool
reference. -/
def cpMissingMsg (classId constantIndex : Int) : String :=
  "Not found in constant pool: class_id=" ++ toString classId
    ++ ", index=" ++ toString constantIndex

/-- The constant-pool resolution step of `Deserializer::deserialize_any`: a resolvable
reference is replaced by the pool entry, an unresolvable one is a `DeserializeError`. -/
def deserializeResolveRef (chunk : Chunk) (classId constantIndex : Int) :
    Except Err ValueDescriptor :=
  match chunk.constantPool.get classId constantIndex with
  | some v => .ok v
  | none => .error (.deserializeError (cpMissingMsg classId constantIndex))

/-- Counterexample to C4 as stated: on a chunk with an empty pool, resolving the
reference `(1, 2)` through `Accessor::get_resolved` panics. -/
theorem getResolved_missing_entry_panics :
    getResolved chunkW (.constantPool 1 2) = .panics "invalid constant pool entry" := rfl

/-- C4 (amended): a missing constant-pool entry yields an absent result from
`ConstantPool::get` and a `DeserializeError` from the deserializer's resolution step —
resolvable outcomes, not panics — but `Accessor::get_resolved` panics on it. -/
theorem constant_pool_missing_entry_behavior (chunk : Chunk) (c x : Int)
    (h : chunk.constantPool.get c x = none) :
    deserializeResolveRef chunk c x = .error (.deserializeError (cpMissingMsg c x))
    ∧ getResolved chunk (.constantPool c x) = .panics "invalid constant pool entry" := by
  constructor
  · rw [deserializeResolveRef, h]
  · rw [getResolved, h]

/-- Witness for C4 (amended): the missing entry `(1, 2)` on the witness chunk. -/
theorem constant_pool_missing_entry_behavior_witness :
    deserializeResolveRef chunkW 1 2 = .error (.deserializeError (cpMissingMsg 1 2))
    ∧ getResolved chunkW (.constantPool 1 2) = .panics "invalid constant pool entry" :=
  constant_pool_missing_entry_behavior chunkW 1 2 rfl

/-! ### Chunk-start parsing (C3 and C5) -/

/-- The file magic `F L R \0` (`crate::MAGIC`). -/
def MAGIC : List Nat := [70, 76, 82, 0]

/-- The head of `ChunkIterator::internal_next` (its cited lines): reset the encoding to
raw, seek to the chunk-start position, read the 4-byte magic (EOF on the first byte is
normal end of stream; a mismatch is `InvalidFormat`), read and gate the version
(`major` must be 1 or 2), then read the raw chunk size. The remainder of chunk
assembly (buffering, header fields, metadata, constant pool) is not needed by any
claim and is not modelled. -/
def readChunkStart (data : List Nat) (chunkStart : Nat) :
    Except Err (Option (Version × Int × Nat)) :=
  let s : ByteStream := ⟨data, false⟩
  match readU8 s chunkStart with
  | .error e => if e = .ioEof then .ok none else .error e
  | .ok (magicHead, pos1) =>
    match readExact s pos1 3 with
    | .error e => .error e
    | .ok (magicTail, pos2) =>
      if magicHead :: magicTail ≠ MAGIC then .error .invalidFormat
      else
        match readI16Raw s pos2 with
        | .error e => .error e
        | .ok (major, pos3) =>
          match readI16Raw s pos3 with
          | .error e => .error e
          | .ok (minor, pos4) =>
            if major = 1 ∨ major = 2 then
              match readI64Raw s pos4 with
              | .error e => .error e
              | .ok (chunkSize, pos5) => .ok (some (⟨major, minor⟩, chunkSize, pos5))
            else .error (.unsupportedVersion ⟨major, minor⟩)

/-- The `Iterator::next` wrapper of `ChunkIterator`: successful parses become items,
errors become error items, and end of stream ends the iteration. -/
def chunkNext (data : List Nat) (chunkStart : Nat) :
    Option (Except Err (Version × Int × Nat)) :=
  match readChunkStart data chunkStart with
  | .ok (some c) => some (.ok c)
  | .ok none => none
  | .error e => some (.error e)

theorem readU8_error (s : ByteStream) (pos : Nat) (e : Err)
    (h : readU8 s pos = .error e) : e = .ioEof := by
  unfold readU8 at h
  cases hb : s.data[pos]? <;> rw [hb] at h <;> simp at h
  exact h.symm

theorem readExact_error (s : ByteStream) : ∀ (n pos : Nat) (e : Err),
    readExact s pos n = .error e → e = .ioEof := by
  intro n
  induction n with
  | zero =>
    intro pos e h
    simp [readExact] at h
  | succ n ih =>
    intro pos e h
    unfold readExact at h
    split at h
    · rename_i e2 heq
      simp only [Except.error.injEq] at h
      subst h
      exact readU8_error s pos e2 heq
    · rename_i b pos1 heq
      split at h
      · rename_i e2 heq2
        simp only [Except.error.injEq] at h
        subst h
        exact ih pos1 e2 heq2
      · simp at h

theorem readI64Raw_error (s : ByteStream) (pos : Nat) (e : Err)
    (h : readI64Raw s pos = .error e) : e = .ioEof := by
  unfold readI64Raw at h
  split at h
  · simp at h
  · rename_i e2 heq
    simp only [Except.error.injEq] at h
    subst h
    exact readExact_error s 8 pos e2 heq

/-- Reading a byte run placed at the cursor returns it unchanged. -/
theorem readExact_middle (bytes : List Nat) : ∀ (pre rest : List Nat) (f : Bool),
    (∀ b ∈ bytes, b < 256) →
    readExact ⟨pre ++ bytes ++ rest, f⟩ pre.length bytes.length
      = .ok (bytes, pre.length + bytes.length) := by
  induction bytes with
  | nil =>
    intro pre rest f hb
    simp [readExact]
  | cons b bs ih =>
    intro pre rest f hb
    have hbb : b < 256 := hb b (by simp)
    have hshape : pre ++ (b :: bs) ++ rest = pre ++ b :: (bs ++ rest) := by simp
    rw [hshape, List.length_cons,
      readExact_succ _ _ bs.length b (pre.length + 1) (readU8_middle pre _ b f hbb)]
    have ih2 := ih (pre ++ [b]) rest f (fun x hx => hb x (by simp [hx]))
    have hshape2 : (pre ++ [b]) ++ bs ++ rest = pre ++ b :: (bs ++ rest) := by simp
    have hlen2 : (pre ++ [b]).length = pre.length + 1 := by simp
    rw [hshape2, hlen2] at ih2
    rw [ih2]
    have harith : pre.length + 1 + bs.length = pre.length + (bs.length + 1) := by omega
    rw [harith]

theorem readChunkStart_not_none (data : List Nat) (cs : Nat) (b : Nat)
    (hb : data[cs]? = some b) : readChunkStart data cs ≠ .ok none := by
  intro h
  have hu : readU8 ⟨data, false⟩ cs = .ok (b % 256, cs + 1) := by
    simp [readU8, hb]
  simp only [readChunkStart] at h
  split at h
  · rename_i e heq
    rw [hu] at heq
    simp at heq
  · rename_i mh p1 heq
    repeat' split at h
    all_goals simp at h

/-- Counterexample to C5 as stated: on an input holding the single byte `F`, reading
the 4-byte magic at chunk start hits EOF (inside the magic), yet chunk iteration
yields an IO-error item instead of the normal end of stream the claim requires. -/
theorem readChunkStart_truncated_magic_not_none :
    readChunkStart [70] 0 = .error .ioEof
    ∧ readChunkStart [70] 0 ≠ .ok none
    ∧ chunkNext [70] 0 = some (.error .ioEof) := by
  refine ⟨rfl, ?_, rfl⟩
  exact readChunkStart_not_none [70] 0 70 rfl

/-- C5 (amended): chunk iteration ends normally (no more chunks) exactly when the
chunk-start position is at or past the end of the input, i.e. when the first magic
byte hits EOF; EOF within the remaining magic bytes propagates as an IO-error item;
four readable bytes at chunk start differing from `F L R \0` give `InvalidFormat`; and
the iterator wrapper yields every error as an error item. -/
theorem readChunkStart_eof_and_magic :
    (∀ (data : List Nat) (cs : Nat),
      readChunkStart data cs = .ok none ↔ data.length ≤ cs)
    ∧ (∀ (pre rest : List Nat) (c0 c1 c2 c3 : Nat),
      c0 < 256 → c1 < 256 → c2 < 256 → c3 < 256 →
      [c0, c1, c2, c3] ≠ MAGIC →
      readChunkStart (pre ++ c0 :: c1 :: c2 :: c3 :: rest) pre.length
        = .error .invalidFormat)
    ∧ (∀ (data : List Nat) (cs : Nat) (e : Err),
      readChunkStart data cs = .error e → chunkNext data cs = some (.error e))
    ∧ (∀ (data : List Nat) (cs : Nat),
      readChunkStart data cs = .ok none → chunkNext data cs = none)
    ∧ (∀ (data : List Nat) (cs : Nat) (c : Version × Int × Nat),
      readChunkStart data cs = .ok (some c) → chunkNext data cs = some (.ok c)) := by
  refine ⟨?_, ?_, ?_, ?_, ?_⟩
  · intro data cs
    constructor
    · intro h
      by_contra hlt
      push_neg at hlt
      exact readChunkStart_not_none data cs data[cs]
        (List.getElem?_eq_getElem hlt) h
    · intro h
      have hb : data[cs]? = none := List.getElem?_eq_none h
      simp [readChunkStart, readU8, hb]
  · intro pre rest c0 c1 c2 c3 h0 h1 h2 h3 hmagic
    have hu : readU8 ⟨pre ++ c0 :: c1 :: c2 :: c3 :: rest, false⟩ pre.length
        = .ok (c0, pre.length + 1) := readU8_middle pre _ c0 false h0
    have hex := readExact_middle [c1, c2, c3] (pre ++ [c0]) rest false
      (by intro x hx; simp at hx; rcases hx with rfl | rfl | rfl <;> assumption)
    simp only [List.append_assoc, List.cons_append, List.singleton_append,
      List.nil_append, List.length_append, List.length_cons, List.length_nil,
      List.length_singleton] at hex
    simp [readChunkStart, hu, hex, hmagic]
  · intro data cs e h
    simp [chunkNext, h]
  · intro data cs h
    simp [chunkNext, h]
  · intro data cs c h
    simp [chunkNext, h]

/-- Witness for C5 (amended): the empty input ends chunk iteration normally, and four
readable bytes `X L R \0` differing from the magic give `InvalidFormat`. -/
theorem readChunkStart_eof_and_magic_witness :
    (readChunkStart [] 0 = .ok none ↔ ([] : List Nat).length ≤ 0)
    ∧ readChunkStart ([] ++ 88 :: 76 :: 82 :: 0 :: []) ([] : List Nat).length
        = .error .invalidFormat :=
  ⟨readChunkStart_eof_and_magic.1 [] 0,
    readChunkStart_eof_and_magic.2.1 [] [] 88 76 82 0 (by norm_num) (by norm_num)
      (by norm_num) (by norm_num) (by decide)⟩

/-- Counterexample to C3 as stated: the version pair (1, 1) is neither (1, 0) nor
(2, 0), yet chunk-start parsing accepts it and raises no `UnsupportedVersion`. -/
theorem version_minor_not_checked :
    readChunkStart (MAGIC ++ [0, 1, 0, 1] ++ [0, 0, 0, 0, 0, 0, 0, 80]) 0
      = .ok (some (⟨1, 1⟩, 80, 16))
    ∧ ((1 : Int), (1 : Int)) ≠ ((1 : Int), (0 : Int))
    ∧ ((1 : Int), (1 : Int)) ≠ ((2 : Int), (0 : Int)) := by
  refine ⟨rfl, by decide, by decide⟩

/-- C3 (amended): chunk iteration fails with `UnsupportedVersion` exactly when the major
version read from the chunk header is neither 1 nor 2; the minor version is not
consulted by the gate. -/
theorem readChunkStart_version_gate (b0 b1 b2 b3 : Nat) (rest : List Nat)
    (h0 : b0 < 256) (h1 : b1 < 256) (h2 : b2 < 256) (h3 : b3 < 256) :
    (readChunkStart (MAGIC ++ b0 :: b1 :: b2 :: b3 :: rest) 0
        = .error (.unsupportedVersion
            ⟨asI16 ((b0 : Int) * 256 + (b1 : Int)), asI16 ((b2 : Int) * 256 + (b3 : Int))⟩))
    ↔ (asI16 ((b0 : Int) * 256 + (b1 : Int)) ≠ 1
        ∧ asI16 ((b0 : Int) * 256 + (b1 : Int)) ≠ 2) := by
  have hu : readU8 ⟨MAGIC ++ b0 :: b1 :: b2 :: b3 :: rest, false⟩ 0 = .ok (70, 1) := rfl
  have hex3 : readExact ⟨MAGIC ++ b0 :: b1 :: b2 :: b3 :: rest, false⟩ 1 3
      = .ok ([76, 82, 0], 4) := rfl
  have hA := readExact_middle [b0, b1] [70, 76, 82, 0] (b2 :: b3 :: rest) false
    (by intro x hx; simp at hx; rcases hx with rfl | rfl <;> assumption)
  simp only [List.cons_append, List.nil_append, List.length_cons, List.length_nil] at hA
  have hB := readExact_middle [b2, b3] [70, 76, 82, 0, b0, b1] rest false
    (by intro x hx; simp at hx; rcases hx with rfl | rfl <;> assumption)
  simp only [List.cons_append, List.nil_append, List.length_cons, List.length_nil] at hB
  have hbe : ∀ x y : Nat, beNat [x, y] = x * 256 + y := by
    intro x y
    simp [beNat]
  norm_num at hA hB
  have hI16a : readI16Raw ⟨MAGIC ++ b0 :: b1 :: b2 :: b3 :: rest, false⟩ 4
      = .ok (asI16 ((b0 : Int) * 256 + (b1 : Int)), 6) := by
    unfold readI16Raw
    rw [show (MAGIC ++ b0 :: b1 :: b2 :: b3 :: rest : List Nat)
        = 70 :: 76 :: 82 :: 0 :: b0 :: b1 :: b2 :: b3 :: rest from rfl, hA]
    simp [hbe]
  have hI16b : readI16Raw ⟨MAGIC ++ b0 :: b1 :: b2 :: b3 :: rest, false⟩ 6
      = .ok (asI16 ((b2 : Int) * 256 + (b3 : Int)), 8) := by
    unfold readI16Raw
    rw [show (MAGIC ++ b0 :: b1 :: b2 :: b3 :: rest : List Nat)
        = 70 :: 76 :: 82 :: 0 :: b0 :: b1 :: b2 :: b3 :: rest from rfl, hB]
    simp [hbe]
  constructor
  · intro h
    by_contra hn
    rw [not_and_or, not_not, not_not] at hn
    have hor : asI16 ((b0 : Int) * 256 + (b1 : Int)) = 1
        ∨ asI16 ((b0 : Int) * 256 + (b1 : Int)) = 2 := hn
    simp only [readChunkStart, hu, hex3, hI16a, hI16b] at h
    rw [if_neg (by simp [MAGIC]), if_pos hor] at h
    split at h
    · rename_i e heq
      simp only [Except.error.injEq] at h
      have := readI64Raw_error _ 8 e heq
      rw [this] at h
      exact absurd h.symm (by simp)
    · simp at h
  · intro hn
    simp only [readChunkStart, hu, hex3, hI16a, hI16b]
    rw [if_neg (by simp [MAGIC]), if_neg (by rw [not_or]; exact hn)]

/-- Witness for C3 (amended): version bytes giving major 3 are rejected exactly because
3 is neither 1 nor 2. -/
theorem readChunkStart_version_gate_witness :
    (readChunkStart (MAGIC ++ 0 :: 3 :: 0 :: 0 :: []) 0
        = .error (.unsupportedVersion
            ⟨asI16 ((0 : Int) * 256 + (3 : Int)), asI16 ((0 : Int) * 256 + (0 : Int))⟩))
    ↔ (asI16 ((0 : Int) * 256 + (3 : Int)) ≠ 1
        ∧ asI16 ((0 : Int) * 256 + (3 : Int)) ≠ 2) := by
  have h := readChunkStart_version_gate 0 3 0 0 [] (by norm_num) (by norm_num)
    (by norm_num) (by norm_num)
  simpa using h

/-! ### C6: event iteration order and reserved event types -/

/-- Observation of one event-record header as read by the iterator: the iterator offset
it was read at, and the declared `i32` size and `i64` event type. -/
structure RecordHeader where
  offset : Nat
  size : Int
  eventType : Int

/-- One successful step of `EventIterator::internal_next`: the reserved records skipped
on the way (with their headers), the yielded record's header, the `Event`'s class and
value, and the resulting stream position and iterator offset. -/
structure EventYield where
  skipped : List RecordHeader
  record : RecordHeader
  cls : TypeDescriptor
  value : ValueDescriptor
  streamPos : Nat
  nextOffset : Nat

/-- `EventIterator::internal_next`: while the offset is inside the chunk body, seek to
body start plus offset, read the record size and event type, advance the offset by the
size (`u64` cast and wrapping add), skip records of type 0 and 1, and decode and yield
any other record. -/
def eventInternalNext : Nat → Chunk → ByteStream → Nat → Except DErr (Option EventYield)
  | 0, _, _, _ => .error .fuel
  | fuel + 1, chunk, s, offset =>
    if offset < chunk.header.chunkBodySize then
      match readI32 s (chunk.header.bodyStartOffset + offset) with
      | .error e => .error (.err e)
      | .ok (size, pos1) =>
        match readI64 s pos1 with
        | .error e => .error (.err e)
        | .ok (etype, pos2) =>
          if etype = 0 ∨ etype = 1 then
            match eventInternalNext fuel chunk s
                ((offset + u64OfI32 size) % 18446744073709551616) with
            | .error e => .error e
            | .ok none => .ok none
            | .ok (some y) => .ok (some { y with skipped := ⟨offset, size, etype⟩ :: y.skipped })
          else
            match chunk.metadata.typePool.get etype with
            | none => .error (.err (.classNotFound etype))
            | some td =>
              match tryNew fuel s pos2 etype chunk.metadata with
              | .error e => .error e
              | .ok (v, pos3) =>
                .ok (some ⟨[], ⟨offset, size, etype⟩, td, v, pos3,
                  (offset + u64OfI32 size) % 18446744073709551616⟩)
    else .ok none

theorem readI32_range (s : ByteStream) (pos : Nat) (v : Int) (pos1 : Nat)
    (h : readI32 s pos = .ok (v, pos1)) : -2147483648 ≤ v ∧ v < 2147483648 := by
  unfold readI32 at h
  split at h
  · split at h
    · rename_i w p heq
      simp only [Except.ok.injEq, Prod.mk.injEq] at h
      obtain ⟨rfl, rfl⟩ := h
      unfold asI32
      omega
    · simp at h
  · unfold readI32Raw at h
    split at h
    · rename_i bs p heq
      simp only [Except.ok.injEq, Prod.mk.injEq] at h
      obtain ⟨rfl, rfl⟩ := h
      unfold asI32
      omega
    · simp at h

theorem eventInternalNext_no_reserved :
    ∀ (fuel : Nat) (chunk : Chunk) (s : ByteStream) (off : Nat) (y : EventYield),
      eventInternalNext fuel chunk s off = .ok (some y) →
      y.record.eventType ≠ 0 ∧ y.record.eventType ≠ 1 := by
  intro fuel
  induction fuel with
  | zero =>
    intro chunk s off y h
    simp [eventInternalNext] at h
  | succ fuel ih =>
    intro chunk s off y h
    rw [eventInternalNext] at h
    split at h
    · split at h
      · simp at h
      · rename_i size pos1 hsz
        split at h
        · simp at h
        · rename_i etype pos2 het
          split at h
          · split at h
            · simp at h
            · simp at h
            · rename_i y1 hrec
              simp only [Except.ok.injEq, Option.some.injEq] at h
              subst h
              exact ih chunk s _ y1 hrec
          · rename_i hnotres
            split at h
            · simp at h
            · split at h
              · simp at h
              · rename_i td htd v pos3 htry
                simp only [Except.ok.injEq, Option.some.injEq] at h
                subst h
                push_neg at hnotres
                exact hnotres
    · simp at h

theorem eventInternalNext_offsets :
    ∀ (fuel : Nat) (chunk : Chunk) (s : ByteStream) (off : Nat) (y : EventYield),
      eventInternalNext fuel chunk s off = .ok (some y) →
      (∀ h ∈ y.skipped, 0 < h.size) → 0 < y.record.size →
      chunk.header.chunkBodySize ≤ 2 ^ 63 →
      off ≤ y.record.offset ∧ y.record.offset < y.nextOffset := by
  intro fuel
  induction fuel with
  | zero =>
    intro chunk s off y h
    simp [eventInternalNext] at h
  | succ fuel ih =>
    intro chunk s off y h hskip hrec hbody
    rw [eventInternalNext] at h
    split at h
    · rename_i hguard
      split at h
      · simp at h
      · rename_i size pos1 hsz
        split at h
        · simp at h
        · rename_i etype pos2 het
          split at h
          · split at h
            · simp at h
            · simp at h
            · rename_i y1 hrec1
              simp only [Except.ok.injEq, Option.some.injEq] at h
              subst h
              dsimp only at hskip hrec ⊢
              have hszpos : 0 < size := hskip ⟨off, size, etype⟩ (List.mem_cons_self _ _)
              have hr32 := readI32_range s _ size pos1 hsz
              have hcast : u64OfI32 size = size.toNat := by
                unfold u64OfI32
                omega
              have h63 : (2 : Nat) ^ 63 = 9223372036854775808 := by norm_num
              have hnowrap : (off + u64OfI32 size) % 18446744073709551616
                  = off + size.toNat := by
                rw [hcast]
                omega
              have hrest := ih chunk s _ y1 hrec1
                (fun x hx => hskip x (List.mem_cons_of_mem _ hx)) hrec hbody
              rw [hnowrap] at hrest
              have hlt : 0 < size.toNat := by omega
              exact ⟨by omega, hrest.2⟩
          · split at h
            · simp at h
            · split at h
              · simp at h
              · rename_i td htd v pos3 htry
                simp only [Except.ok.injEq, Option.some.injEq] at h
                subst h
                dsimp only at hskip hrec ⊢
                have hr32 := readI32_range s _ size pos1 hsz
                have hcast : u64OfI32 size = size.toNat := by
                  unfold u64OfI32
                  omega
                have h63 : (2 : Nat) ^ 63 = 9223372036854775808 := by norm_num
                refine ⟨le_refl _, ?_⟩
                rw [hcast]
                omega
    · simp at h

/-- C6 (amended): events of type 0 (metadata) and 1 (constant pool) are never yielded;
and the yielded byte offsets are strictly increasing provided every record traversed
declares a positive size (the unamended claim fails on a zero or negative declared
size, which re-reads or wraps). -/
theorem eventIterator_order_and_reserved_types :
    (∀ (fuel : Nat) (chunk : Chunk) (s : ByteStream) (off : Nat) (y : EventYield),
      eventInternalNext fuel chunk s off = .ok (some y) →
      y.record.eventType ≠ 0 ∧ y.record.eventType ≠ 1)
    ∧ (∀ (fuel1 fuel2 : Nat) (chunk : Chunk) (s : ByteStream) (off : Nat)
        (y1 y2 : EventYield),
      eventInternalNext fuel1 chunk s off = .ok (some y1) →
      eventInternalNext fuel2 chunk s y1.nextOffset = .ok (some y2) →
      (∀ h ∈ y1.skipped, 0 < h.size) → 0 < y1.record.size →
      (∀ h ∈ y2.skipped, 0 < h.size) → 0 < y2.record.size →
      chunk.header.chunkBodySize ≤ 2 ^ 63 →
      y1.record.offset < y2.record.offset) := by
  refine ⟨eventInternalNext_no_reserved, ?_⟩
  intro fuel1 fuel2 chunk s off y1 y2 h1 h2 hs1 hr1 hs2 hr2 hbody
  have ha := eventInternalNext_offsets fuel1 chunk s off y1 h1 hs1 hr1 hbody
  have hb := eventInternalNext_offsets fuel2 chunk s y1.nextOffset y2 h2 hs2 hr2 hbody
  omega

/-- The event class used by the concrete event-iterator chunks. -/
def tdEvW : TypeDescriptor := ⟨5, "demo.Ev", none, false, [], none, none, false, []⟩

/-- Metadata declaring only the event class. -/
def metaEvW : Metadata := ⟨⟨[]⟩, ⟨[(5, tdEvW)]⟩⟩

/-- A chunk of declared size 80 (body size 12) holding one record of declared size 0. -/
def chunkZeroW : Chunk := ⟨⟨80, 0, 0, 0, 0, 0, 0, 0⟩, metaEvW, ⟨[]⟩⟩

/-- The chunk bytes for `chunkZeroW`: a 68-byte header, then a record with size 0 and
event type 5. -/
def streamZeroW : ByteStream :=
  ⟨List.replicate 68 0 ++ [0, 0, 0, 0] ++ [0, 0, 0, 0, 0, 0, 0, 5], false⟩

/-- The yield the zero-size chunk produces on every step. -/
def yieldZeroW : EventYield := ⟨[], ⟨0, 0, 5⟩, tdEvW, .object 5 [], 80, 0⟩

/-- Counterexample to C6 as stated: with a record of declared size 0, two consecutive
iterator steps yield events at the same byte offset 0, so yielded offsets are not
increasing. -/
theorem eventIterator_zero_size_not_increasing :
    eventInternalNext 10 chunkZeroW streamZeroW 0 = .ok (some yieldZeroW)
    ∧ eventInternalNext 10 chunkZeroW streamZeroW yieldZeroW.nextOffset
        = .ok (some yieldZeroW)
    ∧ yieldZeroW.nextOffset = 0
    ∧ yieldZeroW.record.offset = 0 :=
  ⟨rfl, rfl, rfl, rfl⟩

/-- A chunk of declared size 92 (body size 24) holding two records of declared size
12 each. -/
def chunkPosW : Chunk := ⟨⟨92, 0, 0, 0, 0, 0, 0, 0⟩, metaEvW, ⟨[]⟩⟩

/-- The chunk bytes for `chunkPosW`. -/
def streamPosW : ByteStream :=
  ⟨List.replicate 68 0 ++ ([0, 0, 0, 12] ++ [0, 0, 0, 0, 0, 0, 0, 5])
    ++ ([0, 0, 0, 12] ++ [0, 0, 0, 0, 0, 0, 0, 5]), false⟩

/-- The first yield of the two-record chunk. -/
def yieldPos1W : EventYield := ⟨[], ⟨0, 12, 5⟩, tdEvW, .object 5 [], 80, 12⟩

/-- The second yield of the two-record chunk. -/
def yieldPos2W : EventYield := ⟨[], ⟨12, 12, 5⟩, tdEvW, .object 5 [], 92, 24⟩

/-- Witness for C6 (amended): on the two-record chunk with positive sizes, consecutive
yields are at strictly increasing offsets. -/
theorem eventIterator_order_witness :
    yieldPos1W.record.offset < yieldPos2W.record.offset :=
  eventIterator_order_and_reserved_types.2 10 10 chunkPosW streamPosW 0
    yieldPos1W yieldPos2W rfl rfl
    (by intro x hx; simp [yieldPos1W] at hx) (by norm_num [yieldPos1W])
    (by intro x hx; simp [yieldPos2W] at hx) (by norm_num [yieldPos2W])
    (by decide)

end Jfrs
